import Mathlib

/-!
Shallow embedding of the `tdmath` library (vector / matrix / quaternion math).
`f32` values are modelled as real numbers, `i32` values as integers; the
`panic!` branches of the `Index` implementations are modelled as `Option`
results (`none` = unrecoverable fault).
-/

noncomputable section

namespace Tdmath

/-- A 3 axis vector of `f32` values (embedding of `Vector3`). -/
@[ext]
structure Vector3 where
  x : ℝ
  y : ℝ
  z : ℝ

namespace Vector3

/-- `Vector3::new`. -/
def new (x y z : ℝ) : Vector3 := ⟨x, y, z⟩

/-- `Vector3::zero`. -/
def zero : Vector3 := ⟨0, 0, 0⟩

/-- `Vector3::dot`. -/
def dot (v0 v1 : Vector3) : ℝ :=
  v0.x * v1.x + v0.y * v1.y + v0.z * v1.z

/-- `Vector3::cross`. -/
def cross (v0 v1 : Vector3) : Vector3 :=
  ⟨(v0.y * v1.z) - (v0.z * v1.y),
   (v0.z * v1.x) - (v0.x * v1.z),
   (v0.x * v1.y) - (v0.y * v1.x)⟩

/-- `Vector3::length_squared`. -/
def length_squared (v : Vector3) : ℝ :=
  v.x * v.x + v.y * v.y + v.z * v.z

/-- `Vector3::length`. -/
def length (v : Vector3) : ℝ :=
  Real.sqrt v.length_squared

/-- `Vector3::normalized`. -/
def normalized (v : Vector3) : Vector3 :=
  ⟨v.x / v.length, v.y / v.length, v.z / v.length⟩

/-- `impl Add for Vector3`. -/
instance : Add Vector3 :=
  ⟨fun a b => ⟨a.x + b.x, a.y + b.y, a.z + b.z⟩⟩

/-- `impl Sub for Vector3`. -/
instance : Sub Vector3 :=
  ⟨fun a b => ⟨a.x - b.x, a.y - b.y, a.z - b.z⟩⟩

/-- `impl Mul<f32> for Vector3`. -/
instance : HMul Vector3 ℝ Vector3 :=
  ⟨fun v s => ⟨v.x * s, v.y * s, v.z * s⟩⟩

/-- `impl Neg for Vector3`. -/
instance : Neg Vector3 :=
  ⟨fun v => ⟨-v.x, -v.y, -v.z⟩⟩

@[simp] theorem add_def (a b : Vector3) : a + b = ⟨a.x + b.x, a.y + b.y, a.z + b.z⟩ := rfl

@[simp] theorem sub_def (a b : Vector3) : a - b = ⟨a.x - b.x, a.y - b.y, a.z - b.z⟩ := rfl

@[simp] theorem smul_def (v : Vector3) (s : ℝ) : v * s = Vector3.mk (v.x * s) (v.y * s) (v.z * s) := rfl

@[simp] theorem neg_def (v : Vector3) : -v = Vector3.mk (-v.x) (-v.y) (-v.z) := rfl

/-- `Vector3::barycentric`: never returns `None`; divisions by a zero
denominator are the degenerate (NaN in `f32`) case. -/
def barycentric (point v0 v1 v2 : Vector3) : Option Vector3 :=
  let vec0 := v1 - v0
  let vec1 := v2 - v0
  let vec2 := point - v0
  let d00 := dot vec0 vec0
  let d01 := dot vec0 vec1
  let d11 := dot vec1 vec1
  let d20 := dot vec2 vec0
  let d21 := dot vec2 vec1
  let denom := d00 * d11 - d01 * d01
  let v := (d11 * d20 - d01 * d21) / denom
  let w := (d00 * d21 - d01 * d20) / denom
  let u := 1 - v - w
  some (Vector3.new u v w)

/-- `impl Index<usize> for Vector3`; the fallthrough `panic!` arm is `none`. -/
def index (v : Vector3) (i : ℕ) : Option ℝ :=
  match i with
  | 0 => some v.x
  | 1 => some v.y
  | 2 => some v.z
  | _ => none

end Vector3

/-- A 2 axis vector of `i32` values (embedding of `Vector2i`). -/
@[ext]
structure Vector2i where
  x : ℤ
  y : ℤ

namespace Vector2i

/-- `Vector2i::new`. -/
def new (x y : ℤ) : Vector2i := ⟨x, y⟩

/-- `Vector2i::barycentric`: the `i32` coordinate differences are cast to
`f32` (here: to ℝ), crossed, and the result is rejected when `u.z < 1.0`. -/
def barycentric (point v0 v1 v2 : Vector2i) : Option Vector3 :=
  let x := Vector3.new ((v2.x - v0.x : ℤ) : ℝ) ((v1.x - v0.x : ℤ) : ℝ) ((v0.x - point.x : ℤ) : ℝ)
  let y := Vector3.new ((v2.y - v0.y : ℤ) : ℝ) ((v1.y - v0.y : ℤ) : ℝ) ((v0.y - point.y : ℤ) : ℝ)
  let u := Vector3.cross x y
  if u.z < 1 then
    none
  else
    some (Vector3.new (1 - (u.x + u.y) / u.z) (u.y / u.z) (u.x / u.z))

/-- `impl Index<usize> for Vector2i`; the fallthrough `panic!` arm is `none`. -/
def index (v : Vector2i) (i : ℕ) : Option ℤ :=
  match i with
  | 0 => some v.x
  | 1 => some v.y
  | _ => none

end Vector2i

/-- A quaternion of `f32` values (embedding of `Quaternion`). -/
@[ext]
structure Quaternion where
  x : ℝ
  y : ℝ
  z : ℝ
  w : ℝ

namespace Quaternion

/-- `impl Mul for Quaternion`: the Hamilton product as written in the source
(`cross(qv, rv) + qv*r.w + rv*q.w` for the vector part, `q.w*r.w - dot(qv, rv)`
for the scalar part). -/
def mul (q r : Quaternion) : Quaternion :=
  let qv := Vector3.new q.x q.y q.z
  let rv := Vector3.new r.x r.y r.z
  let v := Vector3.cross qv rv + qv * r.w + rv * q.w
  let w := (q.w * r.w) - Vector3.dot qv rv
  ⟨v.x, v.y, v.z, w⟩

instance : Mul Quaternion := ⟨mul⟩

@[simp] theorem quat_mul_def (q r : Quaternion) : q * r = mul q r := rfl

end Quaternion

/-- A 4x4 matrix of `f32` values (embedding of `Matrix4`); field `mIJ` is
`data[I][J]` in the source's row-major `[[f32; 4]; 4]` array. -/
@[ext]
structure Matrix4 where
  m00 : ℝ
  m01 : ℝ
  m02 : ℝ
  m03 : ℝ
  m10 : ℝ
  m11 : ℝ
  m12 : ℝ
  m13 : ℝ
  m20 : ℝ
  m21 : ℝ
  m22 : ℝ
  m23 : ℝ
  m30 : ℝ
  m31 : ℝ
  m32 : ℝ
  m33 : ℝ

namespace Matrix4

/-- `m[i][j]` for in-range indices (the embedding of `Index` on `Matrix4`
composed with the slice index, at the in-range indices the claims use). -/
def entry (m : Matrix4) (i j : Fin 4) : ℝ :=
  match i.val, j.val with
  | 0, 0 => m.m00
  | 0, 1 => m.m01
  | 0, 2 => m.m02
  | 0, 3 => m.m03
  | 1, 0 => m.m10
  | 1, 1 => m.m11
  | 1, 2 => m.m12
  | 1, 3 => m.m13
  | 2, 0 => m.m20
  | 2, 1 => m.m21
  | 2, 2 => m.m22
  | 2, 3 => m.m23
  | 3, 0 => m.m30
  | 3, 1 => m.m31
  | 3, 2 => m.m32
  | _, _ => m.m33

/-- `Matrix4::zero`. -/
def zero : Matrix4 :=
  ⟨0, 0, 0, 0, 0, 0, 0, 0, 0, 0, 0, 0, 0, 0, 0, 0⟩

/-- `Matrix4::identity`. -/
def identity : Matrix4 :=
  ⟨1, 0, 0, 0, 0, 1, 0, 0, 0, 0, 1, 0, 0, 0, 0, 1⟩

/-- `Matrix4::translation`. -/
def translation (x y z : ℝ) : Matrix4 :=
  ⟨1, 0, 0, x, 0, 1, 0, y, 0, 0, 1, z, 0, 0, 0, 1⟩

/-- `Matrix4::scale`. -/
def scale (x y z : ℝ) : Matrix4 :=
  ⟨x, 0, 0, 0, 0, y, 0, 0, 0, 0, z, 0, 0, 0, 0, 1⟩

/-- `Matrix4::look_at`: note that row `i` of the source's array literal is
`[left[i], new_up[i], forward[i], -dot(basis_i, position)]`, so the basis
vectors appear as the columns of the upper-left 3x3 block. -/
def look_at (position look up : Vector3) : Matrix4 :=
  let forward := (position - look).normalized
  let left := (Vector3.cross forward up.normalized).normalized
  let new_up := Vector3.cross forward left
  ⟨left.x, new_up.x, forward.x, -(Vector3.dot left position),
   left.y, new_up.y, forward.y, -(Vector3.dot new_up position),
   left.z, new_up.z, forward.z, -(Vector3.dot forward position),
   0, 0, 0, 1⟩

/-- `Matrix4::perpective` (sic): starts from `Matrix4::zero` and assigns the
five listed entries, with `s = tan(fov / 2.0 * 3.14159 / 180.0)`. -/
def perpective (fov aspect near far : ℝ) : Matrix4 :=
  let s := Real.tan (fov / 2 * 3.14159 / 180)
  { zero with
      m00 := 1 / (s * aspect)
      m11 := 1 / s
      m22 := -far / (far - near)
      m23 := -far * near / (far - near)
      m32 := -1 }

/-- `impl Mul<Matrix4> for Matrix4`: `r[i][j] = Σ_k self[i][k] * other[k][j]`
(the `Matrix4::identity` initial value of `r` is fully overwritten by the
loops). -/
def mul (a b : Matrix4) : Matrix4 :=
  ⟨a.m00 * b.m00 + a.m01 * b.m10 + a.m02 * b.m20 + a.m03 * b.m30,
   a.m00 * b.m01 + a.m01 * b.m11 + a.m02 * b.m21 + a.m03 * b.m31,
   a.m00 * b.m02 + a.m01 * b.m12 + a.m02 * b.m22 + a.m03 * b.m32,
   a.m00 * b.m03 + a.m01 * b.m13 + a.m02 * b.m23 + a.m03 * b.m33,
   a.m10 * b.m00 + a.m11 * b.m10 + a.m12 * b.m20 + a.m13 * b.m30,
   a.m10 * b.m01 + a.m11 * b.m11 + a.m12 * b.m21 + a.m13 * b.m31,
   a.m10 * b.m02 + a.m11 * b.m12 + a.m12 * b.m22 + a.m13 * b.m32,
   a.m10 * b.m03 + a.m11 * b.m13 + a.m12 * b.m23 + a.m13 * b.m33,
   a.m20 * b.m00 + a.m21 * b.m10 + a.m22 * b.m20 + a.m23 * b.m30,
   a.m20 * b.m01 + a.m21 * b.m11 + a.m22 * b.m21 + a.m23 * b.m31,
   a.m20 * b.m02 + a.m21 * b.m12 + a.m22 * b.m22 + a.m23 * b.m32,
   a.m20 * b.m03 + a.m21 * b.m13 + a.m22 * b.m23 + a.m23 * b.m33,
   a.m30 * b.m00 + a.m31 * b.m10 + a.m32 * b.m20 + a.m33 * b.m30,
   a.m30 * b.m01 + a.m31 * b.m11 + a.m32 * b.m21 + a.m33 * b.m31,
   a.m30 * b.m02 + a.m31 * b.m12 + a.m32 * b.m22 + a.m33 * b.m32,
   a.m30 * b.m03 + a.m31 * b.m13 + a.m32 * b.m23 + a.m33 * b.m33⟩

instance : Mul Matrix4 := ⟨mul⟩

@[simp] theorem mat_mul_def (a b : Matrix4) : a * b = mul a b := rfl

/-- `impl Mul<Vector3> for Matrix4`: homogeneous point transform with
implicit `w = 1`; the fourth row of the matrix is never read. -/
def mulVec3 (m : Matrix4) (v : Vector3) : Vector3 :=
  ⟨v.x * m.m00 + v.y * m.m01 + v.z * m.m02 + m.m03,
   v.x * m.m10 + v.y * m.m11 + v.z * m.m12 + m.m13,
   v.x * m.m20 + v.y * m.m21 + v.z * m.m22 + m.m23⟩

instance : HMul Matrix4 Vector3 Vector3 := ⟨mulVec3⟩

@[simp] theorem mulVec3_def (m : Matrix4) (v : Vector3) : m * v = mulVec3 m v := rfl

end Matrix4

/-! ## Theorems about the claims -/

/-- C8: for every pair of Vector3 values `a` and `b`, `Vector3::cross(a, b)`
equals `-Vector3::cross(b, a)` (cross is anti-commutative). -/
theorem cross_anticommutative (a b : Vector3) :
    Vector3.cross a b = -Vector3.cross b a := by
  simp only [Vector3.cross, Vector3.neg_def, Vector3.mk.injEq]
  refine ⟨by ring, by ring, by ring⟩

/-- C6: `Matrix4 * Vector3` treats the vector as a homogeneous point with
implicit `w = 1`: component `i` equals
`v.x*M[i][0] + v.y*M[i][1] + v.z*M[i][2] + M[i][3]`, the fourth matrix row is
never read and no perspective divide is applied. -/
theorem matrix4_mul_vector3_affine (m : Matrix4) (v : Vector3) :
    (m * v).x = v.x * m.entry 0 0 + v.y * m.entry 0 1 + v.z * m.entry 0 2 + m.entry 0 3 ∧
    (m * v).y = v.x * m.entry 1 0 + v.y * m.entry 1 1 + v.z * m.entry 1 2 + m.entry 1 3 ∧
    (m * v).z = v.x * m.entry 2 0 + v.y * m.entry 2 1 + v.z * m.entry 2 2 + m.entry 2 3 :=
  ⟨rfl, rfl, rfl⟩

/-- C4: `Matrix4::perpective` computes `s = tan((fov / 2) * 3.14159 / 180)`
with the fixed constant `3.14159`, its only nonzero entries are
`m[0][0] = 1/(s*aspect)`, `m[1][1] = 1/s`, `m[2][2] = -far/(far-near)`,
`m[2][3] = -far*near/(far-near)`, `m[3][2] = -1`, and every other entry,
including `m[3][3]`, is `0`. -/
theorem perpective_entries (fov aspect near far : ℝ) :
    (Matrix4.perpective fov aspect near far).m00
        = 1 / (Real.tan (fov / 2 * 3.14159 / 180) * aspect) ∧
    (Matrix4.perpective fov aspect near far).m11
        = 1 / Real.tan (fov / 2 * 3.14159 / 180) ∧
    (Matrix4.perpective fov aspect near far).m22 = -far / (far - near) ∧
    (Matrix4.perpective fov aspect near far).m23 = -far * near / (far - near) ∧
    (Matrix4.perpective fov aspect near far).m32 = -1 ∧
    (Matrix4.perpective fov aspect near far).m01 = 0 ∧
    (Matrix4.perpective fov aspect near far).m02 = 0 ∧
    (Matrix4.perpective fov aspect near far).m03 = 0 ∧
    (Matrix4.perpective fov aspect near far).m10 = 0 ∧
    (Matrix4.perpective fov aspect near far).m12 = 0 ∧
    (Matrix4.perpective fov aspect near far).m13 = 0 ∧
    (Matrix4.perpective fov aspect near far).m20 = 0 ∧
    (Matrix4.perpective fov aspect near far).m21 = 0 ∧
    (Matrix4.perpective fov aspect near far).m30 = 0 ∧
    (Matrix4.perpective fov aspect near far).m31 = 0 ∧
    (Matrix4.perpective fov aspect near far).m33 = 0 :=
  ⟨rfl, rfl, rfl, rfl, rfl, rfl, rfl, rfl, rfl, rfl, rfl, rfl, rfl, rfl, rfl, rfl⟩

/-- C5: every entry of `Matrix4 * Matrix4` is the row-by-column sum
`result[i][j] = Σ_k self[i][k] * other[k][j]`, and the product is not
commutative: there are matrices `A`, `B` with `A*B ≠ B*A`. -/
theorem matrix4_mul_row_by_column_and_noncommutative :
    (∀ (a b : Matrix4) (i j : Fin 4),
        (a * b).entry i j =
          a.entry i 0 * b.entry 0 j + a.entry i 1 * b.entry 1 j +
          a.entry i 2 * b.entry 2 j + a.entry i 3 * b.entry 3 j) ∧
    (∃ a b : Matrix4, a * b ≠ b * a) := by
  constructor
  · intro a b i j
    fin_cases i <;> fin_cases j <;> rfl
  · refine ⟨Matrix4.translation 1 0 0, Matrix4.scale 2 1 1, fun h => ?_⟩
    have h03 := congrArg Matrix4.m03 h
    simp only [Matrix4.mat_mul_def, Matrix4.mul, Matrix4.translation, Matrix4.scale] at h03
    norm_num at h03

/-- C7: quaternion multiplication is the Hamilton product as written in the
source — vector part `cross(qv, rv) + qv*r.w + rv*q.w`, scalar part
`q.w*r.w - dot(qv, rv)` — and it is non-commutative in general. -/
theorem quaternion_mul_hamilton_and_noncommutative :
    (∀ q r : Quaternion,
        q * r =
          ⟨(Vector3.cross (Vector3.new q.x q.y q.z) (Vector3.new r.x r.y r.z) +
              Vector3.new q.x q.y q.z * r.w + Vector3.new r.x r.y r.z * q.w).x,
           (Vector3.cross (Vector3.new q.x q.y q.z) (Vector3.new r.x r.y r.z) +
              Vector3.new q.x q.y q.z * r.w + Vector3.new r.x r.y r.z * q.w).y,
           (Vector3.cross (Vector3.new q.x q.y q.z) (Vector3.new r.x r.y r.z) +
              Vector3.new q.x q.y q.z * r.w + Vector3.new r.x r.y r.z * q.w).z,
           q.w * r.w - Vector3.dot (Vector3.new q.x q.y q.z) (Vector3.new r.x r.y r.z)⟩) ∧
    (∃ q1 q2 : Quaternion, q1 * q2 ≠ q2 * q1) := by
  constructor
  · intro q r
    rfl
  · refine ⟨⟨1, 0, 0, 0⟩, ⟨0, 1, 0, 0⟩, fun h => ?_⟩
    have hz := congrArg Quaternion.z h
    simp only [Quaternion.quat_mul_def, Quaternion.mul, Vector3.new, Vector3.cross,
      Vector3.add_def, Vector3.smul_def] at hz
    norm_num at hz

/-- C9: indexing a `Vector3` with 0/1/2 returns the `x`/`y`/`z` field and any
index at least 3 reaches the fatal `panic!` branch (modelled as `none`, never
a clamped or wrapped value); indexing a `Vector2i` with 0/1 returns `x`/`y`
and any index at least 2 panics. -/
theorem index_in_range_or_panic (v : Vector3) (p : Vector2i) :
    v.index 0 = some v.x ∧ v.index 1 = some v.y ∧ v.index 2 = some v.z ∧
    (∀ i : ℕ, 3 ≤ i → v.index i = none) ∧
    p.index 0 = some p.x ∧ p.index 1 = some p.y ∧
    (∀ i : ℕ, 2 ≤ i → p.index i = none) := by
  refine ⟨rfl, rfl, rfl, ?_, rfl, rfl, ?_⟩
  · intro i hi
    obtain ⟨k, rfl⟩ : ∃ k, i = k + 3 := ⟨i - 3, by omega⟩
    rfl
  · intro i hi
    obtain ⟨k, rfl⟩ : ∃ k, i = k + 2 := ⟨i - 2, by omega⟩
    rfl

/-- C9 witness: the theorem applied at the concrete vector `(1, 2, 3)`, the
concrete integer vector `(4, 5)` and the out-of-range indices 5 and 2. -/
theorem index_in_range_or_panic_witness :
    Vector3.index ⟨1, 2, 3⟩ 5 = none ∧ Vector2i.index ⟨4, 5⟩ 2 = none :=
  ⟨(index_in_range_or_panic ⟨1, 2, 3⟩ ⟨4, 5⟩).2.2.2.1 5 (by norm_num),
   (index_in_range_or_panic ⟨1, 2, 3⟩ ⟨4, 5⟩).2.2.2.2.2.2 2 (by norm_num)⟩

/-- C3: `Vector3::barycentric` always returns a present value (`Some`), even
for collinear vertices; when `v0`, `v1`, `v2` are collinear (the cross product
of the edge vectors vanishes), the denominator `d00*d11 - d01*d01` it divides
by is 0, so the components are the degenerate division-by-zero (NaN in `f32`)
values rather than a signalled error. -/
theorem vector3_barycentric_total_and_degenerate (point v0 v1 v2 : Vector3) :
    (Vector3.barycentric point v0 v1 v2).isSome = true ∧
    (Vector3.cross (v1 - v0) (v2 - v0) = Vector3.zero →
      Vector3.dot (v1 - v0) (v1 - v0) * Vector3.dot (v2 - v0) (v2 - v0) -
        Vector3.dot (v1 - v0) (v2 - v0) * Vector3.dot (v1 - v0) (v2 - v0) = 0) := by
  refine ⟨rfl, fun h => ?_⟩
  simp only [Vector3.cross, Vector3.sub_def, Vector3.zero, Vector3.mk.injEq] at h
  obtain ⟨h1, h2, h3⟩ := h
  simp only [Vector3.dot, Vector3.sub_def]
  linear_combination
    ((v1.y - v0.y) * (v2.z - v0.z) - (v1.z - v0.z) * (v2.y - v0.y)) * h1 +
    ((v1.z - v0.z) * (v2.x - v0.x) - (v1.x - v0.x) * (v2.z - v0.z)) * h2 +
    ((v1.x - v0.x) * (v2.y - v0.y) - (v1.y - v0.y) * (v2.x - v0.x)) * h3

/-- C3 witness: the theorem applied at the collinear triple `(0,0,0)`,
`(1,0,0)`, `(2,0,0)` with the query point `(0,1,0)`. -/
theorem vector3_barycentric_total_and_degenerate_witness :
    (Vector3.barycentric ⟨0, 1, 0⟩ ⟨0, 0, 0⟩ ⟨1, 0, 0⟩ ⟨2, 0, 0⟩).isSome = true ∧
    Vector3.dot (⟨1, 0, 0⟩ - ⟨0, 0, 0⟩) (⟨1, 0, 0⟩ - ⟨0, 0, 0⟩) *
        Vector3.dot (⟨2, 0, 0⟩ - ⟨0, 0, 0⟩) (⟨2, 0, 0⟩ - ⟨0, 0, 0⟩) -
      Vector3.dot (⟨1, 0, 0⟩ - ⟨0, 0, 0⟩) (⟨2, 0, 0⟩ - ⟨0, 0, 0⟩) *
        Vector3.dot (⟨1, 0, 0⟩ - ⟨0, 0, 0⟩) (⟨2, 0, 0⟩ - ⟨0, 0, 0⟩) = 0 := by
  have h := vector3_barycentric_total_and_degenerate ⟨0, 1, 0⟩ ⟨0, 0, 0⟩ ⟨1, 0, 0⟩ ⟨2, 0, 0⟩
  exact ⟨h.1, h.2 (by simp only [Vector3.cross, Vector3.sub_def, Vector3.zero,
    Vector3.mk.injEq]; norm_num)⟩

/-- C10: whether `Vector2i::barycentric` rejects (returns `None`) depends only
on the triangle vertices, never on the queried point: the branch condition
`u.z < 1` reads only the first two components of the homogeneous `x`- and
`y`-vectors, which contain no term involving `point`. -/
theorem vector2i_barycentric_none_independent_of_point
    (v0 v1 v2 p1 p2 : Vector2i) :
    (Vector2i.barycentric p1 v0 v1 v2).isNone =
      (Vector2i.barycentric p2 v0 v1 v2).isNone := by
  simp only [Vector2i.barycentric, Vector3.new, Vector3.cross]
  by_cases h : ((v2.x : ℝ) - (v0.x : ℝ)) * ((v1.y : ℝ) - (v0.y : ℝ)) -
      ((v1.x : ℝ) - (v0.x : ℝ)) * ((v2.y : ℝ) - (v0.y : ℝ)) < 1
  · simp [h]
  · simp [h]

/-- Unfolding lemma for `Vector2i::barycentric` in terms of the homogeneous
cross product `u` (shared helper, not itself a claim). -/
theorem vector2i_barycentric_eq_ite (point v0 v1 v2 : Vector2i) (u : Vector3)
    (hu : u = Vector3.cross
      (Vector3.new ((v2.x - v0.x : ℤ) : ℝ) ((v1.x - v0.x : ℤ) : ℝ) ((v0.x - point.x : ℤ) : ℝ))
      (Vector3.new ((v2.y - v0.y : ℤ) : ℝ) ((v1.y - v0.y : ℤ) : ℝ) ((v0.y - point.y : ℤ) : ℝ))) :
    Vector2i.barycentric point v0 v1 v2 =
      if u.z < 1 then none
      else some (Vector3.new (1 - (u.x + u.y) / u.z) (u.y / u.z) (u.x / u.z)) := by
  subst hu
  rfl

/-- C2: `Vector2i::barycentric(point, v0, v1, v2)` returns `None` exactly when
`u.z < 1`, where `u` is the cross product of the homogeneous x- and y-vectors;
in particular it returns `None` whenever `v0`, `v1`, `v2` are collinear, and
otherwise returns `Some (1 - (u.x+u.y)/u.z, u.y/u.z, u.x/u.z)`. -/
theorem vector2i_barycentric_none_iff (point v0 v1 v2 : Vector2i) (u : Vector3)
    (hu : u = Vector3.cross
      (Vector3.new ((v2.x - v0.x : ℤ) : ℝ) ((v1.x - v0.x : ℤ) : ℝ) ((v0.x - point.x : ℤ) : ℝ))
      (Vector3.new ((v2.y - v0.y : ℤ) : ℝ) ((v1.y - v0.y : ℤ) : ℝ) ((v0.y - point.y : ℤ) : ℝ))) :
    (Vector2i.barycentric point v0 v1 v2 = none ↔ u.z < 1) ∧
    ((v1.x - v0.x) * (v2.y - v0.y) = (v1.y - v0.y) * (v2.x - v0.x) →
      Vector2i.barycentric point v0 v1 v2 = none) ∧
    (¬ u.z < 1 →
      Vector2i.barycentric point v0 v1 v2 =
        some (Vector3.new (1 - (u.x + u.y) / u.z) (u.y / u.z) (u.x / u.z))) := by
  rw [vector2i_barycentric_eq_ite point v0 v1 v2 u hu]
  refine ⟨?_, ?_, fun h => if_neg h⟩
  · by_cases h : u.z < 1
    · simp [h]
    · simp [h]
  · intro hc
    have hc' : ((v1.x - v0.x : ℤ) : ℝ) * ((v2.y - v0.y : ℤ) : ℝ) =
        ((v1.y - v0.y : ℤ) : ℝ) * ((v2.x - v0.x : ℤ) : ℝ) := by
      exact_mod_cast congrArg (fun t : ℤ => (t : ℝ)) hc
    have hz : u.z = 0 := by
      rw [hu]
      simp only [Vector3.cross, Vector3.new]
      linarith [hc']
    rw [if_pos (by rw [hz]; norm_num)]

/-- C2 witness: the theorem applied at the concrete triangle
`v0 = (0,0)`, `v1 = (0,2)`, `v2 = (2,0)` and `point = (0,0)`, where
`u = (0, 0, 4)`: since `u.z = 4 ≥ 1` the result is present. -/
theorem vector2i_barycentric_none_iff_witness :
    Vector2i.barycentric ⟨0, 0⟩ ⟨0, 0⟩ ⟨0, 2⟩ ⟨2, 0⟩ =
      some (Vector3.new (1 - ((0 : ℝ) + 0) / 4) (0 / 4) (0 / 4)) := by
  have h := vector2i_barycentric_none_iff ⟨0, 0⟩ ⟨0, 0⟩ ⟨0, 2⟩ ⟨2, 0⟩ ⟨0, 0, 4⟩
    (by simp only [Vector3.cross, Vector3.new, Vector3.mk.injEq]; norm_num)
  exact h.2.2 (by norm_num)

/-- The view matrix exactly as claim C1 words it: `forward`, `left`, `new_up`
computed by the spec's formulas and laid out as the ROWS of the upper-left 3x3
block, translation column `(-dot(left, position), -dot(new_up, position),
-dot(forward, position), 1)`, bottom row `(0, 0, 0, 1)`. Stated from the
spec's words, for comparison against `Matrix4.look_at`. -/
def look_at_claimed_rows (position look up : Vector3) : Matrix4 :=
  let forward := (position - look).normalized
  let left := (Vector3.cross forward up.normalized).normalized
  let new_up := Vector3.cross forward left
  ⟨left.x, left.y, left.z, -(Vector3.dot left position),
   new_up.x, new_up.y, new_up.z, -(Vector3.dot new_up position),
   forward.x, forward.y, forward.z, -(Vector3.dot forward position),
   0, 0, 0, 1⟩

/-- The view matrix with the same basis formulas but with `left`, `new_up`,
`forward` as the COLUMNS of the upper-left 3x3 block (row `i` is
`(left[i], new_up[i], forward[i])`), translation column and bottom row as in
the claim. Stated from the spec's words as amended, for comparison against
`Matrix4.look_at`. -/
def look_at_claimed_cols (position look up : Vector3) : Matrix4 :=
  let forward := (position - look).normalized
  let left := (Vector3.cross forward up.normalized).normalized
  let new_up := Vector3.cross forward left
  ⟨left.x, new_up.x, forward.x, -(Vector3.dot left position),
   left.y, new_up.y, forward.y, -(Vector3.dot new_up position),
   left.z, new_up.z, forward.z, -(Vector3.dot forward position),
   0, 0, 0, 1⟩

/-- C1 counterexample: at `position = (1,0,0)`, `look = (0,0,0)`,
`up = (0,0,1)` (so `forward = (1,0,0)`, `left = (0,-1,0)`,
`new_up = (0,0,-1)`, all unit length and not parallel to `up`), the matrix
built by `Matrix4::look_at` differs from the matrix the claim describes:
entry `[0][1]` is `new_up.x = 0` in the code but `left.y = -1` per the
claim's row layout. -/
theorem look_at_rows_claim_counterexample :
    Matrix4.look_at ⟨1, 0, 0⟩ ⟨0, 0, 0⟩ ⟨0, 0, 1⟩ ≠
      look_at_claimed_rows ⟨1, 0, 0⟩ ⟨0, 0, 0⟩ ⟨0, 0, 1⟩ := by
  intro h
  have h01 := congrArg Matrix4.m01 h
  norm_num [Matrix4.look_at, look_at_claimed_rows, Vector3.normalized,
    Vector3.length, Vector3.length_squared, Vector3.cross, Vector3.dot,
    Vector3.sub_def, Real.sqrt_one] at h01

/-- C1 amended: for every position, look and up vector, `Matrix4::look_at`
computes `forward = normalize(position - look)`,
`left = normalize(cross(forward, normalize(up)))`,
`new_up = cross(forward, left)`, and returns the matrix whose upper-left 3x3
block has `left`, `new_up`, `forward` as its COLUMNS (row `i` is
`(left[i], new_up[i], forward[i])`), whose translation column is
`(-dot(left, position), -dot(new_up, position), -dot(forward, position), 1)`,
and whose bottom row is `(0, 0, 0, 1)`. -/
theorem look_at_columns_layout (position look up : Vector3) :
    Matrix4.look_at position look up = look_at_claimed_cols position look up := rfl

end Tdmath
